import Mathlib

/-!
Verification development for the DemandRadar reddit-research-tool core
(`src/niche_analyzer.py` and `src/researcher.py`).

Texts are modelled as `List Char` (ASCII model of Python `str`).  Python's
case-insensitive regex patterns in `NicheAnalyzer` are alternations of fixed
phrases wrapped in word boundaries (plus one end-anchor pattern `\?$`), so a
pattern is embedded as the list of its alternative phrases and matching as
word-boundary-delimited substring search on the lowercased text.  Python's
`list(set(..))` (iteration order unspecified) is modelled by the deterministic
`List.dedup`.
-/

/-- ASCII model of Python `str.lower` on a single character. -/
def lowerChar (c : Char) : Char :=
  if 65 ≤ c.toNat ∧ c.toNat ≤ 90 then Char.ofNat (c.toNat + 32) else c

/-- Python `str.lower`. -/
def lowerStr (l : List Char) : List Char := l.map lowerChar

/-- Python regex `\w` on ASCII: letters, digits, underscore. -/
def isWordCharPy (c : Char) : Bool := c.isAlphanum || c == '_'

/-- Python `str.strip` (leading whitespace). -/
def lstripWS (l : List Char) : List Char := l.dropWhile Char.isWhitespace

/-- Python `str.strip` (trailing whitespace). -/
def rstripWS (l : List Char) : List Char := (l.reverse.dropWhile Char.isWhitespace).reverse

/-- Python `str.strip`. -/
def stripWS (l : List Char) : List Char := rstripWS (lstripWS l)

/-- The delimiters of `re.split(r'[.!?\n]', text)` in `_extract_sentence_with_pattern`. -/
def isSegDelim (c : Char) : Bool := c == '.' || c == '!' || c == '?' || c == '\n'

/-- `re.split(r'[.!?\n]', text)`: split at every occurrence of a delimiter,
keeping (possibly empty) segments. -/
def splitSegs : List Char → List (List Char)
  | [] => [[]]
  | c :: rest =>
    if isSegDelim c then [] :: splitSegs rest
    else
      match splitSegs rest with
      | [] => [[c]]
      | s :: ss => (c :: s) :: ss

/-- Is `p` a sublist of `t` starting at position `i`, with the whole of `p` present? -/
def phraseAt (p t : List Char) (i : Nat) : Bool :=
  decide ((t.drop i).take p.length = p ∧ p.length ≤ t.length - i)

/-- `\b` at the boundary just before position `i` resp. just after position `i - 1`:
the adjacent character (if any) is not a word character. -/
def nonWordAt (t : List Char) (i : Nat) : Bool :=
  match t[i]? with
  | none => true
  | some c => !isWordCharPy c

/-- One word-boundary-delimited occurrence of phrase `p` in `t` at position `i`,
modelling `re.search(r'\b(... |p| ...)\b', t)` hitting alternative `p` there. -/
def wbOccursAt (p t : List Char) (i : Nat) : Bool :=
  phraseAt p t i && (i == 0 || nonWordAt t (i - 1)) && nonWordAt t (i + p.length)

/-- `re.search` for a word-boundary-wrapped phrase: some occurrence exists. -/
def wbSearch (p t : List Char) : Bool :=
  (List.range (t.length + 1)).any (wbOccursAt p t)

/-- `re.search(r'\?$', t)`: `t` ends with `?`, or with `?` before a final newline. -/
def qmarkEnd (t : List Char) : Bool :=
  match t.reverse with
  | [] => false
  | c :: rest => if c == '\n' then rest.head? == some '?' else c == '?'

/-- ASCII apostrophe, used inside several source phrases. -/
def apoC : Char := Char.ofNat 39

/-- The five pattern families of `NicheAnalyzer`. -/
inductive Fam | pain | question | request | solution | belief
deriving DecidableEq, Repr

/-- `NicheAnalyzer.PAIN_PATTERNS`: each entry is one source regex, given as its
list of phrase alternatives. -/
def PAIN_PATTERNS : List (List (List Char)) :=
  [ ["struggle".toList, "struggling".toList, "difficult".toList, "hard to".toList,
     "can".toList ++ apoC :: "t".toList, "cannot".toList, "unable to".toList],
    ["frustrated".toList, "frustrating".toList, "annoying".toList, "annoyed".toList,
     "hate".toList, "hating".toList],
    ["problem".toList, "issue".toList, "bug".toList, "broken".toList,
     "doesn".toList ++ apoC :: "t work".toList, "not working".toList],
    ["wish there was".toList, "if only".toList, "would be nice if".toList],
    ["tired of".toList, "sick of".toList, "fed up with".toList],
    ["waste of time".toList, "time consuming".toList, "takes forever".toList],
    ["expensive".toList, "overpriced".toList, "costs too much".toList,
     "can".toList ++ apoC :: "t afford".toList],
    ["complicated".toList, "confusing".toList, "complex".toList, "overwhelming".toList] ]

/-- `NicheAnalyzer.QUESTION_PATTERNS` (the seventh source pattern `\?$` is handled
separately in `matchesPatterns`). -/
def QUESTION_PATTERNS : List (List (List Char)) :=
  [ ["how do i".toList, "how can i".toList, "how to".toList,
     "what".toList ++ apoC :: "s the best way".toList],
    ["anyone know".toList, "does anyone".toList, "has anyone".toList],
    ["looking for".toList, "searching for".toList, "need help with".toList, "need a".toList],
    ["recommend".toList, "suggestion".toList, "advice".toList, "tips".toList],
    ["alternative to".toList, "replacement for".toList, "instead of".toList],
    ["is there a".toList, "are there any".toList] ]

/-- `NicheAnalyzer.REQUEST_PATTERNS`. -/
def REQUEST_PATTERNS : List (List (List Char)) :=
  [ ["wish".toList, "want".toList, "need".toList, "require".toList, "would love".toList],
    ["should have".toList, "must have".toList, "needs to have".toList],
    ["feature request".toList, "suggestion".toList, "idea".toList],
    ["please add".toList, "can you add".toList, "would be great if".toList] ]

/-- `NicheAnalyzer.SOLUTION_PATTERNS`. -/
def SOLUTION_PATTERNS : List (List (List Char)) :=
  [ ["i use".toList, "i".toList ++ apoC :: "m using".toList, "we use".toList,
     "currently using".toList],
    ["switched to".toList, "moved to".toList, "migrated to".toList],
    ["recommend".toList, "love".toList, "great tool".toList, "best tool".toList],
    ["solved by".toList, "fixed by".toList, "helped by".toList] ]

/-- `NicheAnalyzer.BELIEF_PATTERNS` (with `IMO`/`IMHO` lowered, as matching is
case-insensitive). -/
def BELIEF_PATTERNS : List (List (List Char)) :=
  [ ["i think".toList, "i believe".toList, "in my opinion".toList,
     "imo".toList, "imho".toList],
    ["the problem is".toList, "the issue is".toList, "the truth is".toList],
    ["people don".toList ++ apoC :: "t realize".toList, "most people think".toList],
    ["the best approach".toList, "the right way".toList, "should be".toList] ]

/-- The compiled pattern table of a family. -/
def famPatterns : Fam → List (List (List Char))
  | .pain => PAIN_PATTERNS
  | .question => QUESTION_PATTERNS
  | .request => REQUEST_PATTERNS
  | .solution => SOLUTION_PATTERNS
  | .belief => BELIEF_PATTERNS

/-- `NicheAnalyzer._matches_patterns`: the text matches some pattern of the family
(each compiled with `re.IGNORECASE`, modelled by lowercasing the text; the phrase
tables are already lowercase). -/
def matchesPatterns (fam : Fam) (text : List Char) : Bool :=
  let t := lowerStr text
  (famPatterns fam).any (fun alts => alts.any (fun p => wbSearch p t))
    || (fam == Fam.question && qmarkEnd t)

/-- A Reddit post/comment record as consumed by the analyzer: every field may be
absent (`none` models a missing dict key; `post.get(k, '')` is `(·.getD [])`). -/
structure PostRec where
  title : Option (List Char) := none
  selftext : Option (List Char) := none
  body : Option (List Char) := none
deriving DecidableEq, Repr

/-- `post.get('title', '')`. -/
def titleOf (post : PostRec) : List Char := post.title.getD []

/-- `post.get('selftext', '') or post.get('body', '')` (Python `or`: the second
operand is used when the first is missing or empty). -/
def bodyOf (post : PostRec) : List Char :=
  let st := post.selftext.getD []
  if st = [] then post.body.getD [] else st

/-- `f"{title}. {body}"`. -/
def fullTextOf (post : PostRec) : List Char :=
  titleOf post ++ '.' :: ' ' :: bodyOf post

/-- `NicheAnalyzer._extract_sentence_with_pattern`: split the text at sentence
delimiters, strip each segment, and append it to the result when it is nonempty
and matches the family. -/
def extract_sentence_with_pattern (text : List Char) (fam : Fam) : List (List Char) :=
  (splitSegs text).foldl
    (fun acc sentence =>
      let sentence := stripWS sentence
      if sentence ≠ [] ∧ matchesPatterns fam sentence then acc ++ [sentence]
      else acc)
    []

/-- The five insight buckets returned by `NicheAnalyzer.analyze_post`. -/
structure Insights where
  pain_points : List (List Char)
  questions : List (List Char)
  requests : List (List Char)
  solutions : List (List Char)
  beliefs : List (List Char)
deriving DecidableEq, Repr

/-- `NicheAnalyzer.analyze_post`. -/
def analyze_post (post : PostRec) : Insights :=
  let full_text := fullTextOf post
  { pain_points := extract_sentence_with_pattern full_text .pain
    questions := extract_sentence_with_pattern full_text .question
    requests := extract_sentence_with_pattern full_text .request
    solutions := extract_sentence_with_pattern full_text .solution
    beliefs := extract_sentence_with_pattern full_text .belief }

/-- Project the bucket of a family out of an `Insights` value. -/
def bucketOf (ins : Insights) : Fam → List (List Char)
  | .pain => ins.pain_points
  | .question => ins.questions
  | .request => ins.requests
  | .solution => ins.solutions
  | .belief => ins.beliefs

/-- The five intent labels of `NicheAnalyzer.categorize_post_by_intent`. -/
inductive Intent | question | complaint | request | showcase | discussion
deriving DecidableEq, Repr

/-- The fixed showcase phrase set of `categorize_post_by_intent`. -/
def showcaseWords : List (List Char) :=
  ["i made".toList, "i built".toList, "i created".toList, "check out".toList,
   "showcase".toList]

/-- Plain substring containment (`word in title`). -/
def containsSub (p t : List Char) : Bool :=
  (List.range (t.length + 1)).any (phraseAt p t)

/-- `NicheAnalyzer.categorize_post_by_intent`. -/
def categorize_post_by_intent (post : PostRec) : Intent :=
  let title := lowerStr (post.title.getD [])
  if title.contains '?' || matchesPatterns .question title then .question
  else if matchesPatterns .pain title then .complaint
  else if matchesPatterns .request title then .request
  else if showcaseWords.any (fun w => containsSub w title) then .showcase
  else .discussion

/-- Regex `[a-zA-Z]`. -/
def alphaAZ (c : Char) : Bool := c.isAlpha

/-- Word-character test lifted to an optional neighbouring character
(no neighbour = start/end of string = a `\b` boundary). -/
def isWordCharOpt : Option Char → Bool
  | none => false
  | some c => isWordCharPy c

/-- Scanner for `re.findall(r'\b[a-zA-Z]{3,}\b', t)`: `before` is the character
just before the current alphabetic run, `runRev` the run read so far (reversed).
A completed maximal run is emitted when it has length at least 3 and both
neighbouring characters (if any) are not word characters. -/
def findWordsAux : Option Char → List Char → List Char → List (List Char)
  | before, runRev, [] =>
    if 3 ≤ runRev.length && !isWordCharOpt before then [runRev.reverse] else []
  | before, runRev, c :: rest =>
    if alphaAZ c then findWordsAux before (c :: runRev) rest
    else
      (if runRev ≠ [] && 3 ≤ runRev.length && !isWordCharOpt before && !isWordCharPy c
       then [runRev.reverse] else [])
        ++ findWordsAux (some c) [] rest

/-- `re.findall(r'\b[a-zA-Z]{3,}\b', t)`: the maximal alphabetic runs of length
at least 3 whose neighbouring characters (if any) are not word characters. -/
def findWords (l : List Char) : List (List Char) := findWordsAux none [] l

/-- The fixed stopword set of `extract_common_themes`. -/
def stopwords : List (List Char) :=
  ["the".toList, "a".toList, "an".toList, "and".toList, "or".toList, "but".toList,
   "in".toList, "on".toList, "at".toList, "to".toList, "for".toList,
   "of".toList, "with".toList, "by".toList, "from".toList, "is".toList,
   "are".toList, "was".toList, "were".toList, "be".toList, "been".toList,
   "being".toList, "have".toList, "has".toList, "had".toList, "do".toList,
   "does".toList, "did".toList, "will".toList, "would".toList,
   "could".toList, "should".toList, "may".toList, "might".toList, "must".toList,
   "can".toList, "this".toList, "that".toList,
   "these".toList, "those".toList, "i".toList, "you".toList, "he".toList,
   "she".toList, "it".toList, "we".toList, "they".toList, "my".toList,
   "your".toList, "his".toList, "her".toList, "its".toList, "our".toList,
   "their".toList, "what".toList, "which".toList, "who".toList,
   "when".toList, "where".toList, "why".toList, "how".toList, "all".toList,
   "each".toList, "every".toList, "both".toList, "few".toList,
   "more".toList, "most".toList, "other".toList, "some".toList, "such".toList,
   "no".toList, "not".toList, "only".toList, "same".toList,
   "so".toList, "than".toList, "too".toList, "very".toList, "just".toList,
   "also".toList, "now".toList, "here".toList, "there".toList,
   "about".toList, "into".toList, "over".toList, "after".toList, "before".toList,
   "up".toList, "down".toList, "out".toList, "off".toList,
   "if".toList, "then".toList, "else".toList, "because".toList, "as".toList,
   "until".toList, "while".toList, "during".toList,
   "through".toList, "again".toList, "once".toList, "any".toList, "get".toList,
   "got".toList, "like".toList, "know".toList, "think".toList,
   "want".toList, "need".toList, "use".toList, "using".toList, "used".toList,
   "new".toList, "first".toList, "last".toList, "one".toList,
   "two".toList, "way".toList, "even".toList, "well".toList, "back".toList,
   "still".toList, "going".toList, "make".toList, "made".toList,
   "anyone".toList, "someone".toList, "everyone".toList, "something".toList,
   "anything".toList, "everything".toList,
   "really".toList, "much".toList, "many".toList, "dont".toList,
   "don".toList ++ apoC :: "t".toList, "im".toList,
   "i".toList ++ apoC :: "m".toList, "ive".toList,
   "i".toList ++ apoC :: "ve".toList]

/-- Tokenize one title: findall on the lowercased title, then drop stopwords. -/
def titleWords (title : List Char) : List (List Char) :=
  (findWords (lowerStr title)).filter (fun w => !stopwords.contains w)

/-- `collections.Counter` update for one word: first occurrence appends a fresh
entry at the end, so keys are kept in first-encountered order. -/
def bump : List (List Char × Nat) → List Char → List (List Char × Nat)
  | [], w => [(w, 1)]
  | (x, n) :: rest, w => if x = w then (x, n + 1) :: rest else (x, n) :: bump rest w

/-- The word-frequency counter accumulated over all post titles. -/
def wordCounts (posts : List PostRec) : List (List Char × Nat) :=
  posts.foldl (fun acc p => (titleWords (titleOf p)).foldl bump acc) []

/-- Stable insertion (descending by integer key): the new element goes before the
first entry whose key is not larger. -/
def insertKD (k : α → Int) (x : α) : List α → List α
  | [] => [x]
  | y :: ys => if k y ≤ k x then x :: y :: ys else y :: insertKD k x ys

/-- Stable sort, descending by integer key — the semantics of Python's stable
`sorted(..., reverse=True)` / `Counter.most_common` ordering. -/
def sortKD (k : α → Int) : List α → List α
  | [] => []
  | x :: xs => insertKD k x (sortKD k xs)

/-- `Counter.most_common(n)`: stable sort by count descending, truncate to `n`. -/
def most_common (counts : List (List Char × Nat)) (n : Nat) : List (List Char × Nat) :=
  (sortKD (fun e => (e.2 : Int)) counts).take n

/-- `NicheAnalyzer.extract_common_themes`. -/
def extract_common_themes (posts : List PostRec) (top_n : Nat) : List (List Char) :=
  (most_common (wordCounts posts) top_n).map Prod.fst

/-- The `InsightCategory` dataclass of `niche_analyzer.py`. -/
structure InsightCategory where
  pain_points : List (List Char) := []
  questions : List (List Char) := []
  frustrations : List (List Char) := []
  requests : List (List Char) := []
  solutions_mentioned : List (List Char) := []
  beliefs : List (List Char) := []
  perspectives : List (List Char) := []
deriving DecidableEq, Repr

/-- One opportunity record of `generate_saas_opportunities`. -/
structure Opportunity where
  otype : List Char
  signal : List Char
  opportunity : List Char
deriving DecidableEq, Repr

/-- `NicheAnalyzer.generate_saas_opportunities`. -/
def generate_saas_opportunities (insights : InsightCategory) : List Opportunity :=
  let opportunities : List Opportunity := []
  let opportunities := (insights.pain_points.take 10).foldl
    (fun acc pain => acc ++
      [{ otype := "pain_point".toList, signal := pain,
         opportunity := "Tool to address: ".toList ++ pain.take 100 ++ "...".toList }])
    opportunities
  let opportunities := (insights.questions.take 10).foldl
    (fun acc question => acc ++
      [{ otype := "question".toList, signal := question,
         opportunity := "Solution that answers: ".toList ++ question.take 100 ++ "...".toList }])
    opportunities
  let opportunities := (insights.requests.take 10).foldl
    (fun acc request => acc ++
      [{ otype := "feature_request".toList, signal := request,
         opportunity := "Build feature: ".toList ++ request.take 100 ++ "...".toList }])
    opportunities
  opportunities

/-- `' '.join(ws)`. -/
def joinSpace : List (List Char) → List Char
  | [] => []
  | [w] => w
  | w :: rest => w ++ ' ' :: joinSpace rest

/-- Scanner for Python `str.split()`: `runRev` is the current maximal
non-whitespace run read so far (reversed); empty runs are not emitted. -/
def pyWordsAux : List Char → List Char → List (List Char)
  | runRev, [] => if runRev = [] then [] else [runRev.reverse]
  | runRev, c :: rest =>
    if c.isWhitespace then
      (if runRev = [] then [] else [runRev.reverse]) ++ pyWordsAux [] rest
    else pyWordsAux (c :: runRev) rest

/-- Python `str.split()`: maximal runs of non-whitespace characters. -/
def pyWords (l : List Char) : List (List Char) := pyWordsAux [] l

/-- `NicheResearcher.generate_niche_variations`. -/
def generate_niche_variations (niche : List Char) : List (List Char) :=
  let base := lowerStr (stripWS niche)
  let words := pyWords base
  let variations :=
    [base,
     base ++ " software".toList,
     base ++ " tool".toList,
     base ++ " app".toList,
     base ++ " automation".toList,
     base ++ " help".toList,
     base ++ " tips".toList,
     "best ".toList ++ base,
     base ++ " for beginners".toList,
     base ++ " problems".toList]
  let variations := variations ++
    (if base.getLast? = some 's' then [base.dropLast] else [base ++ "s".toList])
  let variations := variations ++
    (match words with
     | w1 :: _ :: _ => [w1, words.getLastD [], joinSpace words.reverse]
     | _ => [])
  variations.dedup

/-- One raw community record inside a search response; any field may be absent. -/
structure RawSub where
  display_name : Option (List Char) := none
  name : Option (List Char) := none
  subscribers : Int := 0
  public_description : List Char := []
deriving DecidableEq, Repr

/-- `sub_data.get('display_name') or sub_data.get('name', '')`. -/
def resolveName (sd : RawSub) : List Char :=
  match sd.display_name with
  | some n => if n = [] then sd.name.getD [] else n
  | none => sd.name.getD []

/-- The processed community record kept by `discover_subreddits`. -/
structure SubInfo where
  name : List Char
  subscribers : Int
  description : List Char
  url : List Char
deriving DecidableEq, Repr

/-- Building one `all_subreddits[name]` entry. -/
def mkSubInfo (sd : RawSub) : SubInfo :=
  { name := resolveName sd
    subscribers := sd.subscribers
    description := sd.public_description.take 200
    url := "https://reddit.com/r/".toList ++ resolveName sd }

/-- The body of the inner `for sub in subreddits` loop of `discover_subreddits`:
a candidate is added only when its resolved name is nonempty and not yet present
(first occurrence wins). -/
def addSub (acc : List SubInfo) (sd : RawSub) : List SubInfo :=
  let n := resolveName sd
  if n ≠ [] ∧ ∀ e ∈ acc, e.name ≠ n then acc ++ [mkSubInfo sd] else acc

/-- A search collaborator: maps a query to an error indicator (`none`) or a list
of raw community records (the `data.children` / `subreddits` shapes are abstracted
into the record list itself). -/
def SearchFn : Type := List Char → Option (List RawSub)

/-- `NicheResearcher.discover_subreddits`: query the first 5 variations, skip
error responses, merge candidates keyed by name (first wins), sort by subscriber
count descending, truncate to the requested maximum. -/
def discover_subreddits (search : SearchFn) (niche : List Char) (maxSubreddits : Nat) :
    List SubInfo :=
  let variations := generate_niche_variations niche
  let merged := (variations.take 5).foldl
    (fun acc v =>
      match search v with
      | none => acc
      | some subs => subs.foldl addSub acc)
    []
  (sortKD (fun e => e.subscribers) merged).take maxSubreddits

/-- The concatenated stream of raw candidates over the queried variations, with
error responses skipped — the order in which `discover_subreddits` sees them. -/
def rawStream (search : SearchFn) (niche : List Char) : List RawSub :=
  (((generate_niche_variations niche).take 5).filterMap search).flatten

/-- A processed post as built by `get_top_posts` (all fields present; only the
fields the analysis reads are modelled). -/
structure RPost where
  title : List Char := []
  selftext : List Char := []
  score : Int := 0
deriving DecidableEq, Repr

/-- View a processed post as the dict record handed to the analyzer
(`'title'` and `'selftext'` keys present, no `'body'` key). -/
def toPostRec (p : RPost) : PostRec :=
  { title := some p.title, selftext := some p.selftext, body := none }

/-- Concatenation of per-post insight buckets (`all_insights[key].extend(...)`). -/
def accInsights (a b : Insights) : Insights :=
  { pain_points := a.pain_points ++ b.pain_points
    questions := a.questions ++ b.questions
    requests := a.requests ++ b.requests
    solutions := a.solutions ++ b.solutions
    beliefs := a.beliefs ++ b.beliefs }

/-- The per-subreddit analysis record returned by `analyze_subreddit`. -/
structure SubAnalysis where
  posts_analyzed : Nat
  top_posts : List RPost
  insights : Insights
  themes : List (List Char)
  question_count : Nat
  complaint_count : Nat
  request_count : Nat
  showcase_count : Nat
  discussion_count : Nat
deriving DecidableEq, Repr

/-- `NicheResearcher.analyze_subreddit`, applied to the posts fetched for one
subreddit (`get_top_posts` returns `[]` for an error response, which is the
caller's input here). -/
def analyze_subreddit (posts : List RPost) : SubAnalysis :=
  { posts_analyzed := posts.length
    top_posts := posts.take 10
    insights := posts.foldl (fun acc p => accInsights acc (analyze_post (toPostRec p)))
      ⟨[], [], [], [], []⟩
    themes := extract_common_themes (posts.map toPostRec) 20
    question_count := posts.countP (fun p => categorize_post_by_intent (toPostRec p) == .question)
    complaint_count := posts.countP (fun p => categorize_post_by_intent (toPostRec p) == .complaint)
    request_count := posts.countP (fun p => categorize_post_by_intent (toPostRec p) == .request)
    showcase_count := posts.countP (fun p => categorize_post_by_intent (toPostRec p) == .showcase)
    discussion_count := posts.countP (fun p => categorize_post_by_intent (toPostRec p) == .discussion) }

/-- Deduplicate-and-truncate one bucket: `list(set(xs))[:cap]` (set enumeration
modelled by `List.dedup`). -/
def dedupTake (cap : Nat) (l : List (List Char)) : List (List Char) :=
  l.dedup.take cap

/-- Step 3 of `research_niche` (lines 303-307): caps 50/50/50/30/30. -/
def finalizeInsights (ic : InsightCategory) : InsightCategory :=
  { ic with
    pain_points := dedupTake 50 ic.pain_points
    questions := dedupTake 50 ic.questions
    requests := dedupTake 50 ic.requests
    solutions_mentioned := dedupTake 30 ic.solutions_mentioned
    beliefs := dedupTake 30 ic.beliefs }

/-- The finalize step of `research_watermark.run_research` (lines 122-124):
every one of the five accumulated buckets is dedup'd and capped at 30. -/
def finalizeWatermark (b : Insights) : Insights :=
  { pain_points := dedupTake 30 b.pain_points
    questions := dedupTake 30 b.questions
    requests := dedupTake 30 b.requests
    solutions := dedupTake 30 b.solutions
    beliefs := dedupTake 30 b.beliefs }

/-- The `ResearchReport` dataclass (the wall-clock `timestamp` field is not
modelled). -/
structure ResearchReport where
  niche : List Char
  subreddits_found : List SubInfo
  total_posts_analyzed : Nat
  top_posts : List RPost
  pain_points : List (List Char)
  questions : List (List Char)
  frustrations : List (List Char)
  requests : List (List Char)
  solutions_mentioned : List (List Char)
  beliefs : List (List Char)
  common_themes : List (List Char)
  saas_opportunities : List Opportunity
deriving DecidableEq, Repr

/-- A content-fetch collaborator: subreddit name to its processed top posts
(`get_top_posts` already maps an error response to `[]`). -/
def FetchFn : Type := List Char → List RPost

/-- `NicheResearcher.research_niche`: discovery, the per-subreddit analysis loop
with running accumulation, finalize, theme ranking, opportunity generation and
report assembly.  Returns `none` (Python `None`) when discovery finds nothing. -/
def research_niche (search : SearchFn) (fetch : FetchFn) (niche : List Char)
    (maxSubreddits : Nat) : Option ResearchReport :=
  let subreddits := discover_subreddits search niche maxSubreddits
  if subreddits = [] then none
  else
    let analyses := (subreddits.take maxSubreddits).map (fun sub => analyze_subreddit (fetch sub.name))
    let total_posts := analyses.foldl (fun t a => t + a.posts_analyzed) 0
    let all_posts := analyses.foldl (fun acc a => acc ++ a.top_posts) []
    let all_themes := analyses.foldl (fun acc a => acc ++ a.themes) []
    let all_insights : InsightCategory := analyses.foldl
      (fun acc a =>
        { acc with
          pain_points := acc.pain_points ++ a.insights.pain_points
          questions := acc.questions ++ a.insights.questions
          requests := acc.requests ++ a.insights.requests
          solutions_mentioned := acc.solutions_mentioned ++ a.insights.solutions
          beliefs := acc.beliefs ++ a.insights.beliefs })
      {}
    let all_insights := finalizeInsights all_insights
    let theme_counts := all_themes.foldl bump []
    let top_themes := ((sortKD (fun e => (e.2 : Int)) theme_counts).take 20).map Prod.fst
    let opportunities := generate_saas_opportunities all_insights
    let sorted_posts := sortKD (fun p => p.score) all_posts
    some
      { niche := niche
        subreddits_found := subreddits
        total_posts_analyzed := total_posts
        top_posts := sorted_posts.take 20
        pain_points := all_insights.pain_points
        questions := all_insights.questions
        frustrations := all_insights.frustrations
        requests := all_insights.requests
        solutions_mentioned := all_insights.solutions_mentioned
        beliefs := all_insights.beliefs
        common_themes := top_themes
        saas_opportunities := opportunities }

/-- The `top_posts` field as claim C6 reads the spec: the FULL corpus of posts
fetched and analyzed across all communities, sorted by score descending,
truncated to 20 (`none` when no report is produced). -/
def claimedTopPostsC6 (search : SearchFn) (fetch : FetchFn) (niche : List Char)
    (maxSubreddits : Nat) : Option (List RPost) :=
  let subreddits := discover_subreddits search niche maxSubreddits
  if subreddits = [] then none
  else
    some ((sortKD (fun p => p.score)
      (((subreddits.take maxSubreddits).map (fun sub => fetch sub.name)).flatten)).take 20)

/-! ### General lemmas about the embedded primitives -/

theorem foldl_append_singleton (f : α → β) (l : List α) (a : List β) :
    l.foldl (fun acc x => acc ++ [f x]) a = a ++ l.map f := by
  induction l generalizing a with
  | nil => simp
  | cons x xs ih => simp [List.foldl_cons, ih]

theorem foldl_append_flatten (g : α → List β) (l : List α) (a : List β) :
    l.foldl (fun acc x => acc ++ g x) a = a ++ (l.map g).flatten := by
  induction l generalizing a with
  | nil => simp
  | cons x xs ih => simp [List.foldl_cons, ih]

theorem insertKD_perm (k : α → Int) (x : α) (l : List α) :
    (insertKD k x l).Perm (x :: l) := by
  induction l with
  | nil => simp [insertKD]
  | cons y ys ih =>
    unfold insertKD
    split
    · exact List.Perm.refl _
    · exact (ih.cons y).trans (List.Perm.swap x y ys)

theorem sortKD_perm (k : α → Int) (l : List α) : (sortKD k l).Perm l := by
  induction l with
  | nil => simp [sortKD]
  | cons x xs ih => exact (insertKD_perm k x (sortKD k xs)).trans (ih.cons x)

theorem insertKD_pairwise (k : α → Int) (x : α) (l : List α)
    (h : l.Pairwise (fun a b => k b ≤ k a)) :
    (insertKD k x l).Pairwise (fun a b => k b ≤ k a) := by
  induction l with
  | nil => simp [insertKD]
  | cons y ys ih =>
    unfold insertKD
    rcases List.pairwise_cons.mp h with ⟨hy, hys⟩
    split
    · next hle =>
      refine List.pairwise_cons.mpr ⟨?_, h⟩
      intro z hz
      rcases List.mem_cons.mp hz with hz' | hz'
      · subst hz'; exact hle
      · exact le_trans (hy z hz') hle
    · next hgt =>
      push_neg at hgt
      refine List.pairwise_cons.mpr ⟨?_, ih hys⟩
      intro z hz
      rcases List.mem_cons.mp ((insertKD_perm k x ys).mem_iff.mp hz) with hz' | hz'
      · subst hz'; exact le_of_lt hgt
      · exact hy z hz'

theorem sortKD_pairwise (k : α → Int) (l : List α) :
    (sortKD k l).Pairwise (fun a b => k b ≤ k a) := by
  induction l with
  | nil => simp [sortKD]
  | cons x xs ih => exact insertKD_pairwise k x _ ih

theorem insertKD_filter_key (k : α → Int) (x : α) (l : List α) (v : Int) :
    (insertKD k x l).filter (fun y => k y == v)
      = if k x = v then x :: l.filter (fun y => k y == v)
        else l.filter (fun y => k y == v) := by
  induction l with
  | nil =>
    by_cases hx : k x = v <;> simp [insertKD, List.filter_cons, hx]
  | cons y ys ih =>
    unfold insertKD
    split
    · next hle =>
      by_cases hx : k x = v <;> simp [List.filter_cons, hx]
    · next hgt =>
      push_neg at hgt
      by_cases hy : k y = v
      · have hx : ¬ k x = v := fun h => absurd (h.trans hy.symm) (ne_of_lt hgt)
        simp [List.filter_cons, hy, ih, hx]
      · simp [List.filter_cons, hy, ih]

theorem sortKD_filter_key (k : α → Int) (l : List α) (v : Int) :
    (sortKD k l).filter (fun y => k y == v) = l.filter (fun y => k y == v) := by
  induction l with
  | nil => simp [sortKD]
  | cons x xs ih =>
    unfold sortKD
    rw [insertKD_filter_key]
    by_cases hx : k x = v
    · simp [List.filter_cons, hx, ih]
    · simp [List.filter_cons, hx, ih]

theorem splitSegs_nil : splitSegs [] = [[]] := rfl

theorem splitSegs_cons (c : Char) (b : List Char) :
    splitSegs (c :: b)
      = if isSegDelim c then [] :: splitSegs b
        else
          match splitSegs b with
          | [] => [[c]]
          | s :: ss => (c :: s) :: ss := rfl

theorem splitSegs_ne_nil (l : List Char) : splitSegs l ≠ [] := by
  cases l with
  | nil => simp [splitSegs_nil]
  | cons c rest =>
    rw [splitSegs_cons]
    split
    · simp
    · split
      · simp
      · simp

theorem splitSegs_cons_delim (c : Char) (hc : isSegDelim c = true) (b : List Char) :
    splitSegs (c :: b) = [] :: splitSegs b := by
  rw [splitSegs_cons, if_pos hc]

theorem splitSegs_cons_nondelim (c : Char) (hc : ¬ isSegDelim c = true) (b : List Char)
    {s : List Char} {ss : List (List Char)} (hb : splitSegs b = s :: ss) :
    splitSegs (c :: b) = (c :: s) :: ss := by
  rw [splitSegs_cons, if_neg hc, hb]

theorem splitSegs_append_delim (d : Char) (hd : isSegDelim d = true) (a b : List Char) :
    splitSegs (a ++ d :: b) = splitSegs a ++ splitSegs b := by
  induction a with
  | nil => rw [List.nil_append, splitSegs_cons_delim d hd, splitSegs_nil]; rfl
  | cons c rest ih =>
    by_cases hc : isSegDelim c
    · rw [List.cons_append, splitSegs_cons_delim c hc, ih,
        splitSegs_cons_delim c hc, List.cons_append]
    · rcases hsr : splitSegs rest with _ | ⟨s, ss⟩
      · exact absurd hsr (splitSegs_ne_nil rest)
      · have hmid : splitSegs (rest ++ d :: b) = s :: (ss ++ splitSegs b) := by
          rw [ih, hsr]; rfl
        rw [List.cons_append, splitSegs_cons_nondelim c hc _ hmid,
          splitSegs_cons_nondelim c hc _ hsr, List.cons_append]

theorem stripWS_cons_space (s : List Char) : stripWS (' ' :: s) = stripWS s := by
  simp [stripWS, lstripWS, List.dropWhile_cons]

/-- `_extract_sentence_with_pattern` in closed form: strip every raw segment and
keep exactly the nonempty stripped segments matching the family, in order. -/
theorem extract_eq_filter (text : List Char) (fam : Fam) :
    extract_sentence_with_pattern text fam
      = ((splitSegs text).map stripWS).filter
          (fun s => decide (s ≠ [] ∧ matchesPatterns fam s)) := by
  unfold extract_sentence_with_pattern
  generalize splitSegs text = ss
  induction ss using List.reverseRecOn with
  | nil => simp
  | append_singleton ss s ih =>
    rw [List.foldl_append, List.foldl_cons, List.foldl_nil, ih,
      List.map_append, List.filter_append]
    by_cases hs : stripWS s ≠ [] ∧ matchesPatterns fam (stripWS s)
    · simp [hs]
    · simp [hs]

theorem map_strip_splitSegs_space (body : List Char) :
    (splitSegs (' ' :: body)).map stripWS = (splitSegs body).map stripWS := by
  rcases hsb : splitSegs body with _ | ⟨s, ss⟩
  · exact absurd hsb (splitSegs_ne_nil body)
  · rw [splitSegs_cons_nondelim ' ' (by decide) _ hsb]
    simp [stripWS_cons_space]

theorem extract_title_body (title body : List Char) (fam : Fam) :
    extract_sentence_with_pattern (title ++ '.' :: ' ' :: body) fam
      = extract_sentence_with_pattern title fam ++ extract_sentence_with_pattern body fam := by
  rw [extract_eq_filter, extract_eq_filter, extract_eq_filter,
    splitSegs_append_delim '.' (by decide) title (' ' :: body),
    List.map_append, map_strip_splitSegs_space, List.filter_append]

theorem bucketOf_analyze_post (post : PostRec) (fam : Fam) :
    bucketOf (analyze_post post) fam
      = extract_sentence_with_pattern (fullTextOf post) fam := by
  cases fam <;> rfl

/-- C1: `analyze_post` splits `f"{title}. {body}"` at `.`/`!`/`?`/newline,
discards empty and whitespace-only segments, and puts a stripped segment into a
family's bucket exactly when some pattern of that family matches it; buckets
keep segment order, title segments before body segments, and membership is
non-exclusive across families. -/
theorem c1_classification_buckets (post : PostRec) (fam : Fam) :
    bucketOf (analyze_post post) fam
      = extract_sentence_with_pattern (titleOf post) fam
        ++ extract_sentence_with_pattern (bodyOf post) fam
  ∧ extract_sentence_with_pattern (fullTextOf post) fam
      = ((splitSegs (fullTextOf post)).map stripWS).filter
          (fun s => decide (s ≠ [] ∧ matchesPatterns fam s))
  ∧ ∀ seg, seg ∈ bucketOf (analyze_post post) fam
      ↔ ((∃ raw ∈ splitSegs (fullTextOf post), stripWS raw = seg)
          ∧ seg ≠ [] ∧ matchesPatterns fam seg = true) := by
  refine ⟨?_, extract_eq_filter _ fam, ?_⟩
  · rw [bucketOf_analyze_post]
    exact extract_title_body (titleOf post) (bodyOf post) fam
  · intro seg
    rw [bucketOf_analyze_post, extract_eq_filter]
    simp only [List.mem_filter, List.mem_map, decide_eq_true_eq]

/-- C2: `categorize_post_by_intent` reads only the title and returns exactly one
of the five labels by first-match priority: `?` in the title or a question
pattern, else a pain pattern, else a request pattern, else a showcase phrase,
else `discussion`. -/
theorem c2_intent_first_match (post : PostRec) :
    (∀ q : PostRec, q.title = post.title →
      categorize_post_by_intent q = categorize_post_by_intent post)
  ∧ (categorize_post_by_intent post = .question
      ↔ ((lowerStr (post.title.getD [])).contains '?'
          || matchesPatterns .question (lowerStr (post.title.getD []))) = true)
  ∧ (categorize_post_by_intent post = .complaint
      ↔ ¬ ((lowerStr (post.title.getD [])).contains '?'
            || matchesPatterns .question (lowerStr (post.title.getD []))) = true
        ∧ matchesPatterns .pain (lowerStr (post.title.getD [])) = true)
  ∧ (categorize_post_by_intent post = .request
      ↔ ¬ ((lowerStr (post.title.getD [])).contains '?'
            || matchesPatterns .question (lowerStr (post.title.getD []))) = true
        ∧ ¬ matchesPatterns .pain (lowerStr (post.title.getD [])) = true
        ∧ matchesPatterns .request (lowerStr (post.title.getD [])) = true)
  ∧ (categorize_post_by_intent post = .showcase
      ↔ ¬ ((lowerStr (post.title.getD [])).contains '?'
            || matchesPatterns .question (lowerStr (post.title.getD []))) = true
        ∧ ¬ matchesPatterns .pain (lowerStr (post.title.getD [])) = true
        ∧ ¬ matchesPatterns .request (lowerStr (post.title.getD [])) = true
        ∧ (showcaseWords.any
            (fun w => containsSub w (lowerStr (post.title.getD [])))) = true)
  ∧ (categorize_post_by_intent post = .discussion
      ↔ ¬ ((lowerStr (post.title.getD [])).contains '?'
            || matchesPatterns .question (lowerStr (post.title.getD []))) = true
        ∧ ¬ matchesPatterns .pain (lowerStr (post.title.getD [])) = true
        ∧ ¬ matchesPatterns .request (lowerStr (post.title.getD [])) = true
        ∧ ¬ (showcaseWords.any
              (fun w => containsSub w (lowerStr (post.title.getD [])))) = true) := by
  constructor
  · intro q hq
    unfold categorize_post_by_intent
    rw [hq]
  · simp only [categorize_post_by_intent]
    split_ifs with h1 h2 h3 h4 <;> simp_all

/-- C3: classification is total (the embedding substitutes the empty string for
every absent field), and a record whose `title`, `selftext` and `body` fields
are each absent or empty yields empty sequences in all five buckets of
`analyze_post` and the intent `discussion` from `categorize_post_by_intent`. -/
theorem c3_safe_defaults (post : PostRec)
    (ht : post.title = none ∨ post.title = some [])
    (hs : post.selftext = none ∨ post.selftext = some [])
    (hb : post.body = none ∨ post.body = some []) :
    analyze_post post = ⟨[], [], [], [], []⟩
  ∧ categorize_post_by_intent post = .discussion := by
  obtain ⟨t, s, b⟩ := post
  rcases ht with ht | ht <;> rcases hs with hs | hs <;> rcases hb with hb | hb <;>
    subst ht <;> subst hs <;> subst hb <;> exact ⟨by decide, by decide⟩

/-- Witness for C3 at the fully absent record. -/
theorem c3_safe_defaults_witness :
    analyze_post { title := none, selftext := none, body := none } = ⟨[], [], [], [], []⟩
  ∧ categorize_post_by_intent { title := none, selftext := none, body := none }
      = .discussion :=
  c3_safe_defaults _ (Or.inl rfl) (Or.inl rfl) (Or.inl rfl)

theorem dedupTake_nodup (n : Nat) (l : List (List Char)) : (dedupTake n l).Nodup :=
  (List.take_sublist n _).nodup l.nodup_dedup

theorem dedupTake_length_le (n : Nat) (l : List (List Char)) :
    (dedupTake n l).length ≤ n := by
  rw [dedupTake, List.length_take]
  exact Nat.min_le_left _ _

theorem dedupTake_subset (n : Nat) (l : List (List Char)) :
    ∀ x ∈ dedupTake n l, x ∈ l := fun _ h =>
  List.mem_dedup.mp ((List.take_sublist n _).subset h)

theorem dedupTake_idem (n : Nat) (l : List (List Char)) :
    dedupTake n (dedupTake n l) = dedupTake n l := by
  show ((l.dedup.take n).dedup).take n = l.dedup.take n
  have h : (l.dedup.take n).dedup = l.dedup.take n :=
    List.Nodup.dedup (dedupTake_nodup n l)
  rw [h]
  exact List.take_of_length_le (by rw [List.length_take]; exact Nat.min_le_left _ _)

theorem dedupTake_full (n : Nat) (l : List (List Char)) (h : l.dedup.length ≤ n) :
    ∀ x, x ∈ dedupTake n l ↔ x ∈ l := by
  intro x
  rw [dedupTake, List.take_of_length_le h, List.mem_dedup]

theorem finalizeInsights_idem (ic : InsightCategory) :
    finalizeInsights (finalizeInsights ic) = finalizeInsights ic := by
  obtain ⟨p, q, f, r, s, b, pe⟩ := ic
  simp [finalizeInsights, dedupTake_idem]

theorem finalizeWatermark_idem (b : Insights) :
    finalizeWatermark (finalizeWatermark b) = finalizeWatermark b := by
  obtain ⟨p, q, r, s, bl⟩ := b
  simp [finalizeWatermark, dedupTake_idem]

/-- C4: the finalize step maps each bucket to its distinct values truncated to
the bucket cap (50/50/50/30/30 in `research_niche`, 30 everywhere in the
watermark variant), and is idempotent: re-finalizing a finalized bucket set
changes nothing — each final bucket is duplicate-free, within its cap, drawn
from the accumulated bucket, and is the whole distinct-value set whenever that
set fits the cap. -/
theorem c4_finalize_dedup (ic : InsightCategory) (w : Insights) :
    finalizeInsights (finalizeInsights ic) = finalizeInsights ic
  ∧ finalizeWatermark (finalizeWatermark w) = finalizeWatermark w
  ∧ ((finalizeInsights ic).pain_points.Nodup
      ∧ (finalizeInsights ic).pain_points.length ≤ 50
      ∧ (∀ x ∈ (finalizeInsights ic).pain_points, x ∈ ic.pain_points)
      ∧ (ic.pain_points.dedup.length ≤ 50 →
          ∀ x, x ∈ (finalizeInsights ic).pain_points ↔ x ∈ ic.pain_points))
  ∧ ((finalizeInsights ic).questions.Nodup
      ∧ (finalizeInsights ic).questions.length ≤ 50
      ∧ (∀ x ∈ (finalizeInsights ic).questions, x ∈ ic.questions)
      ∧ (ic.questions.dedup.length ≤ 50 →
          ∀ x, x ∈ (finalizeInsights ic).questions ↔ x ∈ ic.questions))
  ∧ ((finalizeInsights ic).requests.Nodup
      ∧ (finalizeInsights ic).requests.length ≤ 50
      ∧ (∀ x ∈ (finalizeInsights ic).requests, x ∈ ic.requests)
      ∧ (ic.requests.dedup.length ≤ 50 →
          ∀ x, x ∈ (finalizeInsights ic).requests ↔ x ∈ ic.requests))
  ∧ ((finalizeInsights ic).solutions_mentioned.Nodup
      ∧ (finalizeInsights ic).solutions_mentioned.length ≤ 30
      ∧ (∀ x ∈ (finalizeInsights ic).solutions_mentioned, x ∈ ic.solutions_mentioned)
      ∧ (ic.solutions_mentioned.dedup.length ≤ 30 →
          ∀ x, x ∈ (finalizeInsights ic).solutions_mentioned ↔ x ∈ ic.solutions_mentioned))
  ∧ ((finalizeInsights ic).beliefs.Nodup
      ∧ (finalizeInsights ic).beliefs.length ≤ 30
      ∧ (∀ x ∈ (finalizeInsights ic).beliefs, x ∈ ic.beliefs)
      ∧ (ic.beliefs.dedup.length ≤ 30 →
          ∀ x, x ∈ (finalizeInsights ic).beliefs ↔ x ∈ ic.beliefs))
  ∧ (finalizeWatermark w).pain_points.Nodup ∧ (finalizeWatermark w).pain_points.length ≤ 30
  ∧ (finalizeWatermark w).questions.Nodup ∧ (finalizeWatermark w).questions.length ≤ 30
  ∧ (finalizeWatermark w).requests.Nodup ∧ (finalizeWatermark w).requests.length ≤ 30
  ∧ (finalizeWatermark w).solutions.Nodup ∧ (finalizeWatermark w).solutions.length ≤ 30
  ∧ (finalizeWatermark w).beliefs.Nodup ∧ (finalizeWatermark w).beliefs.length ≤ 30 := by
  refine ⟨finalizeInsights_idem ic, finalizeWatermark_idem w, ?_, ?_, ?_, ?_, ?_,
    ?_, ?_, ?_, ?_, ?_, ?_, ?_, ?_, ?_, ?_⟩ <;>
    first
    | exact ⟨dedupTake_nodup _ _, dedupTake_length_le _ _, dedupTake_subset _ _,
        fun h => dedupTake_full _ _ h⟩
    | exact dedupTake_nodup _ _
    | exact dedupTake_length_le _ _

/-- Witness for C4 at a concrete bucket set containing duplicates. -/
theorem c4_finalize_dedup_witness :
    finalizeInsights (finalizeInsights
        { pain_points := ["a".toList, "a".toList, "b".toList] })
      = finalizeInsights { pain_points := ["a".toList, "a".toList, "b".toList] }
  ∧ (finalizeInsights { pain_points := ["a".toList, "a".toList, "b".toList] }).pain_points.Nodup :=
  ⟨(c4_finalize_dedup { pain_points := ["a".toList, "a".toList, "b".toList] } ⟨[], [], [], [], []⟩).1,
   (c4_finalize_dedup { pain_points := ["a".toList, "a".toList, "b".toList] } ⟨[], [], [], [], []⟩).2.2.1.1⟩

theorem generate_saas_opportunities_eq (ic : InsightCategory) :
    generate_saas_opportunities ic
      = (ic.pain_points.take 10).map (fun pain =>
          { otype := "pain_point".toList, signal := pain,
            opportunity := "Tool to address: ".toList ++ pain.take 100 ++ "...".toList })
        ++ (ic.questions.take 10).map (fun question =>
          { otype := "question".toList, signal := question,
            opportunity := "Solution that answers: ".toList ++ question.take 100 ++ "...".toList })
        ++ (ic.requests.take 10).map (fun request =>
          { otype := "feature_request".toList, signal := request,
            opportunity := "Build feature: ".toList ++ request.take 100 ++ "...".toList }) := by
  simp only [generate_saas_opportunities]
  rw [foldl_append_singleton, foldl_append_singleton, foldl_append_singleton,
    List.nil_append]

/-- C5: `generate_saas_opportunities` emits, for each of the first 10 pain
points, then first 10 questions, then first 10 requests, exactly one record of
type `pain_point` / `question` / `feature_request` whose signal is the fragment
verbatim and whose opportunity text is the template around the fragment cut at
100 characters; hence at most 30 records. -/
theorem c5_opportunity_records (ic : InsightCategory) :
    (generate_saas_opportunities ic).length
      = min 10 ic.pain_points.length + min 10 ic.questions.length
        + min 10 ic.requests.length
  ∧ (generate_saas_opportunities ic).length ≤ 30
  ∧ (∀ i, i < min 10 ic.pain_points.length →
      (generate_saas_opportunities ic)[i]?
        = (ic.pain_points[i]?).map (fun pain =>
            { otype := "pain_point".toList, signal := pain,
              opportunity := "Tool to address: ".toList ++ pain.take 100 ++ "...".toList }))
  ∧ (∀ i, i < min 10 ic.questions.length →
      (generate_saas_opportunities ic)[min 10 ic.pain_points.length + i]?
        = (ic.questions[i]?).map (fun question =>
            { otype := "question".toList, signal := question,
              opportunity := "Solution that answers: ".toList
                ++ question.take 100 ++ "...".toList }))
  ∧ (∀ i, i < min 10 ic.requests.length →
      (generate_saas_opportunities ic)[min 10 ic.pain_points.length
          + min 10 ic.questions.length + i]?
        = (ic.requests[i]?).map (fun request =>
            { otype := "feature_request".toList, signal := request,
              opportunity := "Build feature: ".toList ++ request.take 100 ++ "...".toList })) := by
  have hlen : (generate_saas_opportunities ic).length
      = min 10 ic.pain_points.length + min 10 ic.questions.length
        + min 10 ic.requests.length := by
    rw [generate_saas_opportunities_eq]
    simp only [List.length_append, List.length_map, List.length_take]
  refine ⟨hlen, ?_, ?_, ?_, ?_⟩
  · rw [hlen]; omega
  · intro i hi
    rw [generate_saas_opportunities_eq, List.getElem?_append, if_pos, List.getElem?_append,
      if_pos, List.getElem?_map, List.getElem?_take, if_pos]
    · omega
    · simpa using hi
    · simp only [List.length_append, List.length_map, List.length_take]
      omega
  · intro i hi
    rw [generate_saas_opportunities_eq]
    rw [List.getElem?_append,
      if_pos (by simp only [List.length_append, List.length_map, List.length_take]; omega)]
    rw [List.getElem?_append_right (by simp only [List.length_map, List.length_take]; omega)]
    simp only [List.length_map, List.length_take]
    have hidx : min 10 ic.pain_points.length + i - min 10 ic.pain_points.length = i := by
      omega
    rw [hidx, List.getElem?_map, List.getElem?_take, if_pos (by omega)]
  · intro i hi
    rw [generate_saas_opportunities_eq]
    rw [List.getElem?_append_right
      (by simp only [List.length_append, List.length_map, List.length_take]; omega)]
    simp only [List.length_append, List.length_map, List.length_take]
    have hidx : min 10 ic.pain_points.length + min 10 ic.questions.length + i
        - (min 10 ic.pain_points.length + min 10 ic.questions.length) = i := by
      omega
    rw [hidx, List.getElem?_map, List.getElem?_take, if_pos (by omega)]

/-- C9: `extract_common_themes` tokenizes lowercased titles into alphabetic
words of length at least 3, drops stopwords, counts frequencies across all
titles (`wordCounts`, keys in first-encountered order) and returns the top-N by
descending frequency, ties kept in counter order (the filter-stability
conjunct); for the three CRM titles, `crm` (count 3) is ranked first, ahead of
every once-occurring word. -/
theorem c9_theme_ranking (posts : List PostRec) (top_n : Nat) :
    extract_common_themes posts top_n
      = ((sortKD (fun e => (e.2 : Int)) (wordCounts posts)).take top_n).map Prod.fst
  ∧ (sortKD (fun e => (e.2 : Int)) (wordCounts posts)).Pairwise (fun a b => b.2 ≤ a.2)
  ∧ (sortKD (fun e => (e.2 : Int)) (wordCounts posts)).Perm (wordCounts posts)
  ∧ (∀ v : Int, (sortKD (fun e => (e.2 : Int)) (wordCounts posts)).filter
        (fun e => (e.2 : Int) == v)
      = (wordCounts posts).filter (fun e => (e.2 : Int) == v))
  ∧ (extract_common_themes posts top_n).length = min top_n (wordCounts posts).length
  ∧ extract_common_themes
      [{ title := some "Best CRM for freelancers".toList },
       { title := some "CRM alternatives for small business".toList },
       { title := some "Why is CRM software so expensive".toList }] 20
      = ["crm".toList, "best".toList, "freelancers".toList, "alternatives".toList,
         "small".toList, "business".toList, "software".toList, "expensive".toList] := by
  refine ⟨rfl, ?_, sortKD_perm _ _, fun v => sortKD_filter_key _ _ v, ?_, by decide⟩
  · exact (sortKD_pairwise (fun e => (e.2 : Int)) (wordCounts posts)).imp
      (fun h => by exact_mod_cast h)
  · show ((most_common (wordCounts posts) top_n).map Prod.fst).length = _
    rw [List.length_map, most_common, List.length_take,
      (sortKD_perm (fun e => (e.2 : Int)) (wordCounts posts)).length_eq]

theorem char_toNat_ofNat_add32 (n : Nat) (h1 : 65 ≤ n) (h2 : n ≤ 90) :
    (Char.ofNat (n + 32)).toNat = n + 32 := by
  unfold Char.ofNat
  rw [dif_pos]
  · rfl
  · exact Or.inl (by omega)

theorem lowerChar_idem (c : Char) : lowerChar (lowerChar c) = lowerChar c := by
  unfold lowerChar
  split
  · next h =>
    rw [if_neg]
    rw [char_toNat_ofNat_add32 c.toNat h.1 h.2]
    omega
  · rfl

theorem lowerChar_ws (c : Char) : (lowerChar c).isWhitespace = c.isWhitespace := by
  unfold lowerChar
  split
  · next h =>
    have hn := char_toNat_ofNat_add32 c.toNat h.1 h.2
    have h1 : Char.ofNat (c.toNat + 32) ≠ ' ' := by
      intro he; rw [he] at hn; simp at hn <;> omega
    have h2 : Char.ofNat (c.toNat + 32) ≠ '\t' := by
      intro he; rw [he] at hn; simp at hn <;> omega
    have h3 : Char.ofNat (c.toNat + 32) ≠ '\r' := by
      intro he; rw [he] at hn; simp at hn <;> omega
    have h4 : Char.ofNat (c.toNat + 32) ≠ '\n' := by
      intro he; rw [he] at hn; simp at hn <;> omega
    have g1 : c ≠ ' ' := by
      intro he; rw [he] at h; simp at h
    have g2 : c ≠ '\t' := by
      intro he; rw [he] at h; simp at h
    have g3 : c ≠ '\r' := by
      intro he; rw [he] at h; simp at h
    have g4 : c ≠ '\n' := by
      intro he; rw [he] at h; simp at h
    simp [Char.isWhitespace, h1, h2, h3, h4, g1, g2, g3, g4]
  · rfl

theorem lowerStr_idem (l : List Char) : lowerStr (lowerStr l) = lowerStr l := by
  unfold lowerStr
  rw [List.map_map]
  exact List.map_congr_left (fun c _ => lowerChar_idem c)

theorem dropWhile_dropWhile (p : α → Bool) (l : List α) :
    (l.dropWhile p).dropWhile p = l.dropWhile p := by
  induction l with
  | nil => rfl
  | cons c rest ih =>
    by_cases hc : p c
    · simp [List.dropWhile_cons, hc, ih]
    · simp [List.dropWhile_cons, hc]

theorem lstripWS_lowerStr (l : List Char) :
    lstripWS (lowerStr l) = lowerStr (lstripWS l) := by
  unfold lstripWS lowerStr
  rw [List.dropWhile_map]
  have hws : (Char.isWhitespace ∘ lowerChar) = Char.isWhitespace := by
    funext c; exact lowerChar_ws c
  rw [hws]

theorem rstripWS_lowerStr (l : List Char) :
    rstripWS (lowerStr l) = lowerStr (rstripWS l) := by
  unfold rstripWS lowerStr
  rw [← List.map_reverse, List.dropWhile_map, ← List.map_reverse]
  have hws : (Char.isWhitespace ∘ lowerChar) = Char.isWhitespace := by
    funext c; exact lowerChar_ws c
  rw [hws]

theorem stripWS_lowerStr (l : List Char) :
    stripWS (lowerStr l) = lowerStr (stripWS l) := by
  unfold stripWS
  rw [lstripWS_lowerStr, rstripWS_lowerStr]

theorem head_dropWhile_false (p : α → Bool) (l : List α) (c : α)
    (h : (l.dropWhile p).head? = some c) : p c = false := by
  induction l with
  | nil => simp at h
  | cons d rest ih =>
    by_cases hd : p d
    · rw [List.dropWhile_cons, if_pos hd] at h
      exact ih h
    · rw [List.dropWhile_cons, if_neg hd] at h
      simp at h
      subst h
      simpa using hd

theorem dropWhile_eq_self_of_head (p : α → Bool) (l : List α)
    (h : ∀ c, l.head? = some c → p c = false) : l.dropWhile p = l := by
  cases l with
  | nil => rfl
  | cons c rest =>
    rw [List.dropWhile_cons, if_neg]
    simp [h c rfl]

theorem rstripWS_head (l : List Char) :
    rstripWS l = [] ∨ (rstripWS l).head? = l.head? := by
  cases l with
  | nil => left; rfl
  | cons c rest =>
    unfold rstripWS
    rw [List.reverse_cons, List.dropWhile_append]
    by_cases he : (rest.reverse.dropWhile Char.isWhitespace).isEmpty
    · rw [if_pos he]
      by_cases hc : Char.isWhitespace c
      · left; simp [List.dropWhile_cons, hc]
      · right; simp [List.dropWhile_cons, hc]
    · rw [if_neg he]
      right
      simp

theorem rstripWS_idem (l : List Char) : rstripWS (rstripWS l) = rstripWS l := by
  unfold rstripWS
  rw [List.reverse_reverse, dropWhile_dropWhile]

theorem stripWS_idem (l : List Char) : stripWS (stripWS l) = stripWS l := by
  unfold stripWS
  have hl : lstripWS (rstripWS (lstripWS l)) = rstripWS (lstripWS l) := by
    rcases rstripWS_head (lstripWS l) with h | h
    · rw [h]; rfl
    · apply dropWhile_eq_self_of_head
      intro c hc
      rw [h] at hc
      exact head_dropWhile_false Char.isWhitespace l c hc
  rw [hl, rstripWS_idem]

theorem lowerStrip_idem (s : List Char) :
    lowerStr (stripWS (lowerStr (stripWS s))) = lowerStr (stripWS s) := by
  rw [stripWS_lowerStr, stripWS_idem, lowerStr_idem]

theorem lowerStr_eq_self_iff (l : List Char) :
    lowerStr l = l ↔ ∀ c ∈ l, lowerChar c = c := by
  unfold lowerStr
  induction l with
  | nil => simp
  | cons c rest ih =>
    simp only [List.map_cons, List.cons.injEq, List.mem_cons]
    constructor
    · rintro ⟨h1, h2⟩ d hd
      rcases hd with rfl | hd
      · exact h1
      · exact (ih.mp h2) d hd
    · intro h
      exact ⟨h c (Or.inl rfl), ih.mpr (fun d hd => h d (Or.inr hd))⟩

theorem allLower_of_subset (u v : List Char) (hu : lowerStr u = u)
    (hsub : ∀ c ∈ v, c ∈ u) : lowerStr v = v :=
  (lowerStr_eq_self_iff v).mpr (fun c hc => (lowerStr_eq_self_iff u).mp hu c (hsub c hc))

theorem lowerStr_append (a b : List Char) :
    lowerStr (a ++ b) = lowerStr a ++ lowerStr b := List.map_append lowerChar a b

theorem lowerStr_append_self (a b : List Char) (ha : lowerStr a = a)
    (hb : lowerStr b = b) : lowerStr (a ++ b) = a ++ b := by
  rw [lowerStr_append, ha, hb]

theorem pyWordsAux_chars (l : List Char) :
    ∀ runRev, ∀ w ∈ pyWordsAux runRev l, ∀ c ∈ w, c ∈ runRev ∨ c ∈ l := by
  induction l with
  | nil =>
    intro runRev w hw c hc
    by_cases hr : runRev = [] <;> simp [pyWordsAux, hr] at hw
    subst hw
    exact Or.inl (List.mem_reverse.mp hc)
  | cons d rest ih =>
    intro runRev w hw c hc
    by_cases hd : d.isWhitespace
    · simp only [pyWordsAux, if_pos hd, List.mem_append] at hw
      rcases hw with hw | hw
      · by_cases hr : runRev = [] <;> simp [hr] at hw
        subst hw
        exact Or.inl (List.mem_reverse.mp hc)
      · rcases ih [] w hw c hc with h | h
        · simp at h
        · exact Or.inr (List.mem_cons_of_mem d h)
    · simp only [pyWordsAux, if_neg hd] at hw
      rcases ih (d :: runRev) w hw c hc with h | h
      · rcases List.mem_cons.mp h with rfl | h
        · exact Or.inr (List.mem_cons_self _ _)
        · exact Or.inl h
      · exact Or.inr (List.mem_cons_of_mem d h)

theorem pyWords_chars (l : List Char) : ∀ w ∈ pyWords l, ∀ c ∈ w, c ∈ l := by
  intro w hw c hc
  rcases pyWordsAux_chars l [] w hw c hc with h | h
  · simp at h
  · exact h

theorem joinSpace_chars (ws : List (List Char)) :
    ∀ c ∈ joinSpace ws, c = ' ' ∨ ∃ w ∈ ws, c ∈ w := by
  induction ws with
  | nil => simp [joinSpace]
  | cons w rest ih =>
    cases rest with
    | nil =>
      intro c hc
      right
      exact ⟨w, List.mem_cons_self _ _, by simpa [joinSpace] using hc⟩
    | cons v rest' =>
      intro c hc
      rw [show joinSpace (w :: v :: rest') = w ++ ' ' :: joinSpace (v :: rest') from rfl] at hc
      rcases List.mem_append.mp hc with h | h
      · exact Or.inr ⟨w, List.mem_cons_self _ _, h⟩
      · rcases List.mem_cons.mp h with rfl | h
        · exact Or.inl rfl
        · rcases ih c h with h' | ⟨u, hu, hcu⟩
          · exact Or.inl h'
          · exact Or.inr ⟨u, List.mem_cons_of_mem w hu, hcu⟩

theorem getLastD_mem_cons' (x : α) (l : List α) (d : α) :
    (x :: l).getLastD d ∈ x :: l := by
  induction l generalizing x d with
  | nil => simp [List.getLastD]
  | cons y rest ih =>
    rw [show (x :: y :: rest).getLastD d = (y :: rest).getLastD x from rfl]
    exact List.mem_cons_of_mem x (ih y x)

/-- C10: `generate_niche_variations` normalizes its input by lowercasing and
stripping surrounding whitespace, so the variations of any niche string equal
those of its lowercased trimmed form, and every emitted variation is lowercase. -/
theorem c10_variation_normalization (niche : List Char) :
    generate_niche_variations niche
      = generate_niche_variations (lowerStr (stripWS niche))
  ∧ ∀ v ∈ generate_niche_variations niche, lowerStr v = v := by
  constructor
  · unfold generate_niche_variations
    rw [lowerStrip_idem]
  · intro v hv
    have hb : lowerStr (lowerStr (stripWS niche)) = lowerStr (stripWS niche) :=
      lowerStr_idem _
    have hword : ∀ w ∈ pyWords (lowerStr (stripWS niche)), lowerStr w = w := fun w hw =>
      allLower_of_subset _ w hb (fun c hc => pyWords_chars _ w hw c hc)
    have l1 : lowerStr " software".toList = " software".toList := by decide
    have l2 : lowerStr " tool".toList = " tool".toList := by decide
    have l3 : lowerStr " app".toList = " app".toList := by decide
    have l4 : lowerStr " automation".toList = " automation".toList := by decide
    have l5 : lowerStr " help".toList = " help".toList := by decide
    have l6 : lowerStr " tips".toList = " tips".toList := by decide
    have l7 : lowerStr "best ".toList = "best ".toList := by decide
    have l8 : lowerStr " for beginners".toList = " for beginners".toList := by decide
    have l9 : lowerStr " problems".toList = " problems".toList := by decide
    have l10 : lowerStr "s".toList = "s".toList := by decide
    simp only [generate_niche_variations, List.mem_dedup] at hv
    rcases List.mem_append.mp hv with hv | hv
    · rcases List.mem_append.mp hv with hv | hv
      · simp only [List.mem_cons, List.not_mem_nil, or_false] at hv
        rcases hv with rfl | rfl | rfl | rfl | rfl | rfl | rfl | rfl | rfl | rfl
        · exact hb
        · exact lowerStr_append_self _ _ hb l1
        · exact lowerStr_append_self _ _ hb l2
        · exact lowerStr_append_self _ _ hb l3
        · exact lowerStr_append_self _ _ hb l4
        · exact lowerStr_append_self _ _ hb l5
        · exact lowerStr_append_self _ _ hb l6
        · exact lowerStr_append_self _ _ l7 hb
        · exact lowerStr_append_self _ _ hb l8
        · exact lowerStr_append_self _ _ hb l9
      · by_cases hs : (lowerStr (stripWS niche)).getLast? = some 's'
        · rw [if_pos hs] at hv
          simp only [List.mem_singleton] at hv
          subst hv
          exact allLower_of_subset _ _ hb (fun c hc => List.dropLast_subset _ hc)
        · rw [if_neg hs] at hv
          simp only [List.mem_singleton] at hv
          subst hv
          exact lowerStr_append_self _ _ hb l10
    · rcases hw : pyWords (lowerStr (stripWS niche)) with _ | ⟨w1, rest1⟩
      · rw [hw] at hv
        simp at hv
      · rcases rest1 with _ | ⟨w2, rest2⟩
        · rw [hw] at hv
          simp at hv
        · rw [hw] at hv
          simp only [List.mem_cons, List.not_mem_nil, or_false] at hv
          rcases hv with rfl | rfl | rfl
          · exact hword v (by rw [hw]; exact List.mem_cons_self _ _)
          · exact hword _ (by rw [hw]; exact getLastD_mem_cons' w1 (w2 :: rest2) [])
          · apply (lowerStr_eq_self_iff _).mpr
            intro c hc
            rcases joinSpace_chars _ c hc with rfl | ⟨w, hwmem, hcw⟩
            · decide
            · exact (lowerStr_eq_self_iff w).mp
                (hword w (by rw [hw]; exact List.mem_reverse.mp hwmem)) c hcw

theorem discover_merged_eq_flat (search : SearchFn) (vs : List (List Char))
    (acc : List SubInfo) :
    vs.foldl
      (fun acc v =>
        match search v with
        | none => acc
        | some subs => subs.foldl addSub acc)
      acc
    = ((vs.filterMap search).flatten).foldl addSub acc := by
  induction vs generalizing acc with
  | nil => rfl
  | cons v rest ih =>
    rw [List.foldl_cons, List.filterMap_cons]
    cases hs : search v with
    | none => exact ih acc
    | some subs =>
      rw [List.flatten_cons, List.foldl_append]
      exact ih (subs.foldl addSub acc)

theorem addSub_inv (pre : List RawSub) (sd : RawSub) (acc : List SubInfo)
    (h1 : (acc.map (fun s => s.name)).Nodup)
    (h2 : ∀ s ∈ acc, s.name ≠ []
      ∧ (pre.find? (fun r => resolveName r == s.name)).map mkSubInfo = some s)
    (h3 : ∀ r ∈ pre, resolveName r = [] ∨ ∃ s ∈ acc, s.name = resolveName r) :
    ((addSub acc sd).map (fun s => s.name)).Nodup
  ∧ (∀ s ∈ addSub acc sd, s.name ≠ []
      ∧ ((pre ++ [sd]).find? (fun r => resolveName r == s.name)).map mkSubInfo = some s)
  ∧ (∀ r ∈ pre ++ [sd], resolveName r = [] ∨ ∃ s ∈ addSub acc sd, s.name = resolveName r) := by
  have hname_sd : (mkSubInfo sd).name = resolveName sd := rfl
  have hext : ∀ s ∈ acc,
      ((pre ++ [sd]).find? (fun r => resolveName r == s.name)).map mkSubInfo = some s := by
    intro s hs
    obtain ⟨a, ha, hmk⟩ := Option.map_eq_some'.mp (h2 s hs).2
    rw [List.find?_append, ha]
    simpa using hmk
  by_cases hc : resolveName sd ≠ [] ∧ ∀ e ∈ acc, e.name ≠ resolveName sd
  · have hadd : addSub acc sd = acc ++ [mkSubInfo sd] := by
      simp only [addSub]
      rw [if_pos hc]
    rw [hadd]
    refine ⟨?_, ?_, ?_⟩
    · rw [List.map_append]
      refine List.nodup_append.mpr ⟨h1, by simp, ?_⟩
      intro a ha hb
      simp only [List.map_cons, List.map_nil, List.mem_singleton] at hb
      rcases List.mem_map.mp ha with ⟨e, he, rfl⟩
      exact hc.2 e he (by rw [hb, hname_sd])
    · intro s hs
      rcases List.mem_append.mp hs with hs | hs
      · exact ⟨(h2 s hs).1, hext s hs⟩
      · simp only [List.mem_singleton] at hs
        subst hs
        have hnone : pre.find? (fun r => resolveName r == (mkSubInfo sd).name) = none := by
          rw [List.find?_eq_none]
          intro r hr hfalse
          have hr' := eq_of_beq hfalse
          rcases h3 r hr with hre | ⟨s', hs', hname⟩
          · rw [hre] at hr'
            exact hc.1 (hname_sd ▸ hr'.symm)
          · exact hc.2 s' hs' (by rw [hname, hr', hname_sd])
        have hone : List.find? (fun r => resolveName r == (mkSubInfo sd).name) [sd]
            = some sd := by
          simp [List.find?_cons, hname_sd]
        refine ⟨by rw [hname_sd]; exact hc.1, ?_⟩
        rw [List.find?_append, hnone, Option.none_or, hone, Option.map_some']
    · intro r hr
      rcases List.mem_append.mp hr with hr | hr
      · rcases h3 r hr with hre | ⟨s', hs', hname⟩
        · exact Or.inl hre
        · exact Or.inr ⟨s', List.mem_append_left _ hs', hname⟩
      · simp only [List.mem_singleton] at hr
        subst hr
        exact Or.inr ⟨mkSubInfo r, List.mem_append_right _ (List.mem_singleton_self _),
          hname_sd⟩
  · have hadd : addSub acc sd = acc := by
      simp only [addSub]
      rw [if_neg hc]
    rw [hadd]
    push_neg at hc
    refine ⟨h1, ?_, ?_⟩
    · intro s hs
      exact ⟨(h2 s hs).1, hext s hs⟩
    · intro r hr
      rcases List.mem_append.mp hr with hr | hr
      · exact h3 r hr
      · simp only [List.mem_singleton] at hr
        subst hr
        by_cases hre : resolveName r = []
        · exact Or.inl hre
        · obtain ⟨e, he, hee⟩ := hc hre
          exact Or.inr ⟨e, he, hee⟩

theorem mergeRaw_inv (stream : List RawSub) :
    ∀ (pre : List RawSub) (acc : List SubInfo),
      (acc.map (fun s => s.name)).Nodup
      → (∀ s ∈ acc, s.name ≠ []
          ∧ (pre.find? (fun r => resolveName r == s.name)).map mkSubInfo = some s)
      → (∀ r ∈ pre, resolveName r = [] ∨ ∃ s ∈ acc, s.name = resolveName r)
      → ((stream.foldl addSub acc).map (fun s => s.name)).Nodup
        ∧ (∀ s ∈ stream.foldl addSub acc, s.name ≠ []
            ∧ ((pre ++ stream).find? (fun r => resolveName r == s.name)).map mkSubInfo
                = some s)
        ∧ (∀ r ∈ pre ++ stream,
            resolveName r = [] ∨ ∃ s ∈ stream.foldl addSub acc, s.name = resolveName r) := by
  induction stream with
  | nil =>
    intro pre acc h1 h2 h3
    rw [List.append_nil]
    exact ⟨h1, h2, h3⟩
  | cons sd rest ih =>
    intro pre acc h1 h2 h3
    obtain ⟨g1, g2, g3⟩ := addSub_inv pre sd acc h1 h2 h3
    have hstep := ih (pre ++ [sd]) (addSub acc sd) g1 g2 g3
    rw [List.append_assoc] at hstep
    exact hstep

theorem merged_stream_inv (search : SearchFn) (niche : List Char) :
    (((rawStream search niche).foldl addSub []).map (fun s => s.name)).Nodup
  ∧ (∀ s ∈ (rawStream search niche).foldl addSub [], s.name ≠ []
      ∧ ((rawStream search niche).find? (fun r => resolveName r == s.name)).map mkSubInfo
          = some s)
  ∧ (∀ r ∈ rawStream search niche,
      resolveName r = [] ∨ ∃ s ∈ (rawStream search niche).foldl addSub [],
        s.name = resolveName r) := by
  have hinv := mergeRaw_inv (rawStream search niche) [] []
    (by simp) (by simp) (by simp)
  rw [List.nil_append] at hinv
  exact hinv

theorem discover_subreddits_eq (search : SearchFn) (niche : List Char)
    (maxSubreddits : Nat) :
    discover_subreddits search niche maxSubreddits
      = (sortKD (fun e => e.subscribers)
          ((rawStream search niche).foldl addSub [])).take maxSubreddits := by
  simp only [discover_subreddits]
  rw [discover_merged_eq_flat]
  rfl

/-- C7: `discover_subreddits` returns no two candidates with the same community
name, keeps for each name the record built from the first raw candidate with
that name in the queried response stream (later duplicates do not overwrite),
is sorted by subscriber count descending, and is truncated to the requested
maximum. -/
theorem c7_discovery_invariants (search : SearchFn) (niche : List Char)
    (maxSubreddits : Nat) :
    ((discover_subreddits search niche maxSubreddits).map (fun s => s.name)).Nodup
  ∧ (∀ s ∈ discover_subreddits search niche maxSubreddits,
      s.name ≠ []
      ∧ ((rawStream search niche).find? (fun r => resolveName r == s.name)).map mkSubInfo
          = some s)
  ∧ (discover_subreddits search niche maxSubreddits).Pairwise
      (fun a b => b.subscribers ≤ a.subscribers)
  ∧ (discover_subreddits search niche maxSubreddits).length ≤ maxSubreddits := by
  obtain ⟨g1, g2, _⟩ := merged_stream_inv search niche
  rw [discover_subreddits_eq]
  generalize (rawStream search niche).foldl addSub [] = merged at g1 g2 ⊢
  refine ⟨?_, ?_, ?_, ?_⟩
  · have hperm : (merged.map (fun s => s.name)).Perm
        ((sortKD (fun e => e.subscribers) merged).map (fun s => s.name)) :=
      ((sortKD_perm (fun e => e.subscribers) merged).map (fun s => s.name)).symm
    have hsorted : ((sortKD (fun e => e.subscribers) merged).map (fun s => s.name)).Nodup :=
      hperm.nodup g1
    have hsub : ((sortKD (fun e => e.subscribers) merged).take maxSubreddits).map
        (fun s => s.name)
        |>.Sublist ((sortKD (fun e => e.subscribers) merged).map (fun s => s.name)) :=
      (List.take_sublist _ _).map _
    exact hsub.nodup hsorted
  · intro s hs
    have hmem : s ∈ merged :=
      (sortKD_perm (fun e => e.subscribers) merged).mem_iff.mp
        ((List.take_sublist _ _).subset hs)
    exact g2 s hmem
  · exact List.Pairwise.sublist (List.take_sublist _ _)
      (sortKD_pairwise (fun e => e.subscribers) merged)
  · rw [List.length_take]
    exact Nat.min_le_left _ _

/-- C8: an error response for a search variation is skipped (it contributes
exactly as much as an empty result, and discovery continues); if every queried
variation fails or returns no candidates, discovery returns `[]`, and the full
research run then produces the distinguished no-report outcome `none` — which
happens exactly when discovery is empty, so the outcome is never an empty
report. -/
theorem c8_failure_handling (search search' : SearchFn) (fetch : FetchFn)
    (niche : List Char) (maxSubreddits : Nat) :
    ((∀ v, search' v = search v ∨ (search v = none ∧ search' v = some []))
      → discover_subreddits search' niche maxSubreddits
          = discover_subreddits search niche maxSubreddits)
  ∧ ((∀ v, search v = none ∨ search v = some [])
      → discover_subreddits search niche maxSubreddits = []
        ∧ research_niche search fetch niche maxSubreddits = none)
  ∧ (research_niche search fetch niche maxSubreddits = none
      ↔ discover_subreddits search niche maxSubreddits = []) := by
  refine ⟨?_, ?_, ?_⟩
  · intro hag
    rw [discover_subreddits_eq, discover_subreddits_eq]
    have hstream : rawStream search' niche = rawStream search niche := by
      unfold rawStream
      generalize (generate_niche_variations niche).take 5 = vs
      induction vs with
      | nil => rfl
      | cons v rest ih =>
        rw [List.filterMap_cons, List.filterMap_cons]
        rcases hag v with he | ⟨h1, h2⟩
        · rw [he]
          cases search v with
          | none => exact ih
          | some subs => rw [List.flatten_cons, List.flatten_cons, ih]
        · rw [h1, h2, List.flatten_cons, List.nil_append, ih]
    rw [hstream]
  · intro hall
    have hstream : rawStream search niche = [] := by
      unfold rawStream
      generalize (generate_niche_variations niche).take 5 = vs
      induction vs with
      | nil => rfl
      | cons v rest ih =>
        rw [List.filterMap_cons]
        rcases hall v with h | h
        · rw [h]; exact ih
        · rw [h, List.flatten_cons, List.nil_append]; exact ih
    have hdisc : discover_subreddits search niche maxSubreddits = [] := by
      rw [discover_subreddits_eq, hstream]
      simp [sortKD]
    refine ⟨hdisc, ?_⟩
    simp [research_niche, hdisc]
  · simp only [research_niche]
    split_ifs with h
    · simp [h]
    · simp [h]

/-- Witness for C8: with every search response an error, discovery is empty and
the run produces no report. -/
theorem c8_failure_handling_witness :
    discover_subreddits (fun _ => none) "crm".toList 5 = []
  ∧ research_niche (fun _ => none) (fun _ => []) "crm".toList 5 = none :=
  (c8_failure_handling (fun _ => none) (fun _ => none) (fun _ => []) "crm".toList 5).2.1
    (fun _ => Or.inl rfl)

/-- C6 (amended): the report's `top_posts` is NOT the full fetched corpus — each
community contributes only the first 10 of its fetched posts
(`analyze_subreddit` keeps `posts[:10]`), and `top_posts` is that concatenation
sorted by score descending, truncated to 20. -/
theorem c6_top_posts_amended (search : SearchFn) (fetch : FetchFn) (niche : List Char)
    (maxSubreddits : Nat) :
    (research_niche search fetch niche maxSubreddits).map (fun r => r.top_posts)
      = if discover_subreddits search niche maxSubreddits = [] then none
        else some ((sortKD (fun p => p.score)
            ((((discover_subreddits search niche maxSubreddits).take maxSubreddits).map
              (fun sub => (fetch sub.name).take 10)).flatten)).take 20) := by
  simp only [research_niche]
  split_ifs with h
  · rfl
  · simp only [Option.map_some']
    congr 1
    rw [foldl_append_flatten, List.nil_append, List.map_map]
    rfl

/-- C6 (counterexample): with one community whose fetch returns 11 posts of
scores 0..10, the report's `top_posts` (built from the first 10 posts only)
differs from the claimed sort-of-the-full-corpus: the score-10 post is analyzed
but missing from the report. -/
theorem c6_top_posts_counterexample :
    (research_niche
        (fun _ => some [{ display_name := some "testsub".toList, subscribers := 1 }])
        (fun _ => (List.range 11).map (fun i => { score := (i : Int) }))
        "crm".toList 5).map (fun r => r.top_posts)
      ≠ claimedTopPostsC6
        (fun _ => some [{ display_name := some "testsub".toList, subscribers := 1 }])
        (fun _ => (List.range 11).map (fun i => { score := (i : Int) }))
        "crm".toList 5 := by
  decide
